import Mathlib

/-!
Verification of the flight-recorder control service and its codec layer.

The development shallowly embeds the Go sources:
* `flightrecorder.go` — the control service (`Service.Start`, `Service.Stop`,
  `Service.Snapshot`, `Service.Update`, `Service.Status`, `InitService`);
* the JSON helper file — the byte-size codec (`formatMemoryUnits`,
  `parseUnitsBytes`, `convertMemoryUnits`) and the (un)marshalling hooks
  for `StatusResponse` and `UpdateRequest`.

Strings are modelled as lists of characters, Go `int` and `time.Duration`
as unbounded `Int` (no claim under verification involves overflow), and the
external `trace.FlightRecorder` capability as a record of the observable
fields the service reads and writes (the enabled flag, the period and the
size it was last given), with the fallible capability calls (start, stop,
snapshot writing) driven by explicit outcome parameters.
-/

namespace FlightRec

/-- Character classes used by the Go code: the decimal digits tested by
strconv.Atoi, and the white space trimmed by strings.TrimSpace (ASCII
subset; all inputs under verification are ASCII). -/
def isDigitCh (c : Char) : Bool := 48 ≤ c.toNat && c.toNat ≤ 57

/-- White space characters recognised by strings.TrimSpace (ASCII subset). -/
def isSpaceCh (c : Char) : Bool :=
  c.toNat == 32 || c.toNat == 9 || c.toNat == 10 ||
  c.toNat == 11 || c.toNat == 12 || c.toNat == 13

/-- strings.TrimSpace: drop white space from both ends. -/
def trimSpace (s : List Char) : List Char :=
  ((s.dropWhile isSpaceCh).reverse.dropWhile isSpaceCh).reverse

/-- strings.HasSuffix: length check plus equality of the final slice. -/
def hasSuffix (s suf : List Char) : Bool :=
  decide (suf.length ≤ s.length) && decide (s.drop (s.length - suf.length) = suf)

/-- strings.TrimSuffix: remove the suffix when present, else return unchanged. -/
def trimSuffix (s suf : List Char) : List Char :=
  if hasSuffix s suf then s.take (s.length - suf.length) else s

/-- The digit loop of strconv.Atoi: accumulate the decimal value, failing on
the first non-digit character.  The empty-input case is rejected by the
callers below, matching Go (an accumulator over the empty list is only
reached with at least one digit consumed or guarded against). -/
def digitsValAux : List Char → Nat → Option Nat
  | [], acc => some acc
  | c :: cs, acc =>
    if isDigitCh c then digitsValAux cs (acc * 10 + (c.toNat - 48)) else none

/-- strconv.Atoi on base-10 input: optional sign, then one or more decimal
digits; anything else fails.  (Range errors of the 64-bit type are not
modelled; no claim under verification involves overflow.) -/
def atoi (s : List Char) : Option Int :=
  match s with
  | [] => none
  | c :: cs =>
    if c = '+' then
      if cs = [] then none else (digitsValAux cs 0).map Int.ofNat
    else if c = '-' then
      if cs = [] then none else (digitsValAux cs 0).map (fun n => -Int.ofNat n)
    else (digitsValAux (c :: cs) 0).map Int.ofNat

/-- convertMemoryUnits: parse the magnitude and scale it by the unit. -/
def convertMemoryUnits (s : List Char) (mult : Int) : Option Int :=
  (atoi s).map (fun v => v * mult)

/-- parseUnitsBytes: trim white space, then dispatch on the unit suffix
(MB, then KB, then a bare B), falling through to a plain integer of bytes. -/
def parseUnitsBytes (s0 : List Char) : Option Int :=
  let s := trimSpace s0
  if hasSuffix s ['M', 'B'] then
    convertMemoryUnits (trimSuffix s ['M', 'B']) (1024 * 1024)
  else if hasSuffix s ['K', 'B'] then
    convertMemoryUnits (trimSuffix s ['K', 'B']) 1024
  else if hasSuffix s ['B'] then
    atoi (trimSuffix s ['B'])
  else
    atoi s

/-- Decimal digit rendering of a natural number, most significant first,
as fmt.Sprintf with the %d verb produces.  Structural recursion on a fuel
argument so that concrete values reduce in the kernel; the fuel n + 1 always
suffices because the value shrinks by a factor of ten each step. -/
def natDigitsAux : Nat → Nat → List Char
  | 0, _ => []
  | fuel + 1, n =>
    if n < 10 then [Char.ofNat (48 + n)]
    else natDigitsAux fuel (n / 10) ++ [Char.ofNat (48 + n % 10)]

/-- Decimal rendering of a natural number. -/
def natDigits (n : Nat) : List Char := natDigitsAux (n + 1) n

/-- Decimal rendering of an integer, with a leading minus sign when
negative, as fmt.Sprintf with the %d verb produces. -/
def intToChars (i : Int) : List Char :=
  if i < 0 then '-' :: natDigits i.natAbs else natDigits i.toNat

/-- formatMemoryUnits: sizes strictly above 1MB render as whole (truncated)
megabytes, sizes strictly above 1KB as whole (truncated) kilobytes, and
everything else as bytes. -/
def formatMemoryUnits (s : Int) : List Char :=
  if s > 1024 * 1024 then intToChars (s / (1024 * 1024)) ++ ['M', 'B']
  else if s > 1024 then intToChars (s / 1024) ++ ['K', 'B']
  else intToChars s ++ ['B']

/-- The size field produced by the MarshalJSON hook of StatusResponse:
formatMemoryUnits for a non-zero size, the literal 0B for a zero size. -/
def statusSizeField (size : Int) : List Char :=
  if size ≠ 0 then formatMemoryUnits size else ['0', 'B']

/-- Errors produced by the UnmarshalJSON hook of UpdateRequest, carrying the
full rendered message. -/
inductive CodecError
  | invalidDuration (msg : List Char)
  | invalidSize (msg : List Char)
deriving DecidableEq

instance {ε α : Type} [DecidableEq ε] [DecidableEq α] : DecidableEq (Except ε α) := fun x y =>
  match x, y with
  | Except.ok a, Except.ok b => decidable_of_iff (a = b) (by simp)
  | Except.error a, Except.error b => decidable_of_iff (a = b) (by simp)
  | Except.ok _, Except.error _ => isFalse (by simp)
  | Except.error _, Except.ok _ => isFalse (by simp)

/-- Modelled from the spec: the duration wire format decoded by the standard
library function time.ParseDuration, which is not part of this repository.
Per the spec the format is a magnitude immediately followed by a standard
time unit suffix (ns, us, ms, s, m, h), with several components allowed and
an optional leading sign; fractional magnitudes are outside the inputs under
verification and are not modelled.  Decoding fails on unparsable input. -/
def durationUnitVal : List Char → Option Int
  | ['n', 's'] => some 1
  | ['u', 's'] => some 1000
  | ['m', 's'] => some 1000000
  | ['s'] => some 1000000000
  | ['m'] => some 60000000000
  | ['h'] => some 3600000000000
  | _ => none

/-- Modelled from the spec: the component loop of the duration decoder.
Each component is one or more digits followed by a unit name (a maximal run
of characters that are neither digits nor a decimal point). -/
def parseDurComponents : Nat → List Char → Option Int
  | _, [] => some 0
  | 0, _ => none
  | fuel + 1, s =>
    let ds := s.takeWhile isDigitCh
    let rest := s.dropWhile isDigitCh
    if ds = [] then none
    else
      match digitsValAux ds 0 with
      | none => none
      | some v =>
        let unit := rest.takeWhile (fun c => !(isDigitCh c) && c ≠ '.')
        let rest2 := rest.dropWhile (fun c => !(isDigitCh c) && c ≠ '.')
        match durationUnitVal unit with
        | none => none
        | some u => (parseDurComponents fuel rest2).map (fun acc => acc + v * u)

/-- Modelled from the spec: the duration decoder used for the period field
of an update request (time.ParseDuration, standard library).  An optional
sign, the special literal 0, otherwise one or more magnitude-unit
components.  The result is in nanoseconds. -/
def parseDuration (s : List Char) : Option Int :=
  let signed : Bool × List Char :=
    match s with
    | '-' :: cs => (true, cs)
    | '+' :: cs => (false, cs)
    | cs => (false, cs)
  let neg := signed.1
  let body := signed.2
  if body = ['0'] then some 0
  else if body = [] then none
  else (parseDurComponents (body.length + 1) body).map
    (fun v => if neg then -v else v)

/-- The period branch of the UnmarshalJSON hook of UpdateRequest: decode the
duration, wrapping a decode failure in the invalid-period message that
carries the offending literal. -/
def decodePeriod (s : List Char) : Except CodecError Int :=
  match parseDuration s with
  | some d => Except.ok d
  | none =>
    Except.error (CodecError.invalidDuration
      ("invalid period: ".toList ++ s ++
        " should be a duration (e.g. 1s, 100ms, 1h)".toList))

/-- The size branch of the UnmarshalJSON hook of UpdateRequest: decode the
byte size, wrapping a decode failure in the invalid-size message that
carries the offending literal. -/
def decodeSize (s : List Char) : Except CodecError Int :=
  match parseUnitsBytes s with
  | some v => Except.ok v
  | none =>
    Except.error (CodecError.invalidSize
      ("invalid size: ".toList ++ s ++
        " should be an integer of bytes, or a memory unit (e.g. X, or 1MB, 1KB, 1B)".toList))

/-- The observable state of the external trace.FlightRecorder capability:
its enabled flag and the period and size most recently pushed into it. -/
structure Recorder where
  enabled : Bool
  rperiod : Int
  rsize : Int
deriving DecidableEq

/-- The state of the control service: the owned recorder capability plus
the stored configuration (period in nanoseconds, size in bytes). -/
structure ServiceState where
  recorder : Recorder
  period : Int
  size : Int
deriving DecidableEq

/-- The errors the service operations return (the Go code returns message
strings; a capability or write failure carries the underlying cause). -/
inductive ServiceError
  | alreadyRunning
  | notRunning
  | snapshotInProgress
  | writeFailed (cause : List Char)
  | capability (cause : List Char)
deriving DecidableEq

/-- StatusResponse as the service fills it. -/
structure StatusResponse where
  enabled : Bool
  period : Int
  size : Int
deriving DecidableEq

/-- UpdateRequest after decoding: an optional period and an optional size. -/
structure UpdateRequest where
  period : Option Int
  size : Option Int
deriving DecidableEq

/-- InitService: a fresh service over a newly created recorder capability,
with the default configuration of one second and 64MB. -/
def initService (r0 : Recorder) : ServiceState :=
  { recorder := r0, period := 1000000000, size := 64 * 1024 * 1024 }

/-- Service.Status: project the enabled flag of the capability and the
stored configuration. -/
def ServiceState.status (s : ServiceState) : StatusResponse :=
  { enabled := s.recorder.enabled, period := s.period, size := s.size }

/-- Service.Start.  If the recorder is enabled, fail with the
already-running error and change nothing.  Otherwise push the stored period
and size into the capability and invoke the capability start call, whose
outcome is the parameter capStart (none for success, some cause for a
capability failure surfaced unchanged). -/
def ServiceState.start (s : ServiceState) (capStart : Option (List Char)) :
    Option ServiceError × ServiceState :=
  if s.recorder.enabled then (some ServiceError.alreadyRunning, s)
  else
    let r := { s.recorder with rperiod := s.period, rsize := s.size }
    match capStart with
    | none => (none, { s with recorder := { r with enabled := true } })
    | some e => (some (ServiceError.capability e), { s with recorder := r })

/-- Service.Stop.  If the recorder is not enabled, fail with the
not-running error and change nothing.  Otherwise invoke the capability stop
call (outcome capStop) and surface its result unchanged; a successful stop
clears the enabled flag, a failed one leaves the capability as it was. -/
def ServiceState.stop (s : ServiceState) (capStop : Option (List Char)) :
    Option ServiceError × ServiceState :=
  if s.recorder.enabled then
    match capStop with
    | none => (none, { s with recorder := { s.recorder with enabled := false } })
    | some e => (some (ServiceError.capability e), s)
  else (some ServiceError.notRunning, s)

/-- The outcome of the capability call writing a snapshot into the
in-memory buffer: success with the bytes written, the snapshot-active
error, or any other write error with its cause. -/
inductive WriteOutcome
  | ok (data : List Nat)
  | snapshotActive
  | failed (cause : List Char)
deriving DecidableEq

/-- Service.Snapshot, returning the Go pair of payload and error (none
models the nil slice and the nil error).  If the recorder is not enabled,
fail with the not-running error.  Otherwise the capability writes into a
fresh buffer: on success return exactly the bytes written; the
snapshot-active error maps to the snapshot-in-progress error; any other
write error is wrapped as a write failure carrying the cause. -/
def ServiceState.snapshot (s : ServiceState) (w : WriteOutcome) :
    Option (List Nat) × Option ServiceError :=
  if s.recorder.enabled then
    match w with
    | WriteOutcome.ok data => (some data, none)
    | WriteOutcome.snapshotActive => (none, some ServiceError.snapshotInProgress)
    | WriteOutcome.failed e => (none, some (ServiceError.writeFailed e))
  else (none, some ServiceError.notRunning)

/-- Service.Update: for each present field overwrite the stored value and,
when the recorder is currently enabled, push it into the capability as
well; absent fields are untouched; the operation always returns success. -/
def ServiceState.update (s : ServiceState) (req : UpdateRequest) :
    Option ServiceError × ServiceState :=
  let s1 :=
    match req.period with
    | none => s
    | some p =>
      if s.recorder.enabled then
        { s with period := p, recorder := { s.recorder with rperiod := p } }
      else { s with period := p }
  let s2 :=
    match req.size with
    | none => s1
    | some z =>
      if s1.recorder.enabled then
        { s1 with size := z, recorder := { s1.recorder with rsize := z } }
      else { s1 with size := z }
  (none, s2)

end FlightRec

namespace FlightRec

/-- C1 counterexample: the byte-size encoder renders 1048576 (exactly 1MB)
as 1024KB, not as 1MB, because the megabyte branch requires a size strictly
greater than 1MB. -/
theorem c1_counterexample :
    formatMemoryUnits 1048576 = ['1', '0', '2', '4', 'K', 'B'] ∧
    formatMemoryUnits 1048576 ≠ ['1', 'M', 'B'] := by decide

/-- C1 (amended): the byte-size encoder renders sizes strictly greater than
1MB as whole megabytes by truncating integer division, sizes strictly
greater than 1KB (and at most 1MB) as whole kilobytes (truncating), and all
other sizes as bytes with suffix B; in particular encode 1048576 is 1024KB,
encode 1048577 is 1MB, truncation drops any sub-unit remainder, and
encode 0 is 0B (both directly and through the status size field). -/
theorem c1_amended :
    (∀ s : Int, 1024 * 1024 < s →
      formatMemoryUnits s = intToChars (s / (1024 * 1024)) ++ ['M', 'B']) ∧
    (∀ s : Int, s ≤ 1024 * 1024 → 1024 < s →
      formatMemoryUnits s = intToChars (s / 1024) ++ ['K', 'B']) ∧
    (∀ s : Int, s ≤ 1024 → formatMemoryUnits s = intToChars s ++ ['B']) ∧
    formatMemoryUnits 1048576 = ['1', '0', '2', '4', 'K', 'B'] ∧
    formatMemoryUnits 1048577 = ['1', 'M', 'B'] ∧
    formatMemoryUnits (3 * 1048576 + 999999) = ['3', 'M', 'B'] ∧
    formatMemoryUnits 0 = ['0', 'B'] ∧
    statusSizeField 0 = ['0', 'B'] := by
  refine ⟨?_, ?_, ?_, by decide, by decide, by decide, by decide, by decide⟩
  · intro s hs
    unfold formatMemoryUnits
    rw [if_pos hs]
  · intro s h1 h2
    unfold formatMemoryUnits
    rw [if_neg (by omega), if_pos h2]
  · intro s h1
    unfold formatMemoryUnits
    rw [if_neg (by omega), if_neg (by omega)]

/-- C2 counterexample: starting a fresh (stopped) service with a failing
capability start call returns an error, yet has already pushed the stored
period and size into the capability, so the capability does not keep its
prior values. -/
theorem c2_counterexample :
    ((initService ⟨false, 0, 0⟩).start (some ['E'])).1 ≠ none ∧
    ((initService ⟨false, 0, 0⟩).start (some ['E'])).2.recorder.rperiod ≠
      (initService ⟨false, 0, 0⟩).recorder.rperiod ∧
    ((initService ⟨false, 0, 0⟩).start (some ['E'])).2.recorder.rsize ≠
      (initService ⟨false, 0, 0⟩).recorder.rsize := by decide

/-- C2 (amended): a failed start leaves the stored Configuration and the
enabled flag untouched, but when the failure comes from the capability
start call the capability period and size have already been set to the
stored values; a failed stop leaves all prior state untouched; update
applies its fields and never fails. -/
theorem c2_amended :
    (∀ (s : ServiceState) (e : Option (List Char)),
      (s.start e).1 ≠ none →
        (s.start e).2.period = s.period ∧ (s.start e).2.size = s.size ∧
        (s.start e).2.recorder.enabled = s.recorder.enabled) ∧
    (∀ (s : ServiceState) (c : List Char), s.recorder.enabled = false →
      (s.start (some c)).2.recorder.rperiod = s.period ∧
      (s.start (some c)).2.recorder.rsize = s.size) ∧
    (∀ (s : ServiceState) (e : Option (List Char)),
      (s.stop e).1 ≠ none → (s.stop e).2 = s) ∧
    (∀ (s : ServiceState) (req : UpdateRequest), (s.update req).1 = none) := by
  refine ⟨?_, ?_, ?_, ?_⟩
  · intro s e h
    unfold ServiceState.start at h ⊢
    by_cases hen : s.recorder.enabled
    · simp [hen]
    · cases e <;> simp [hen] at h ⊢
  · intro s c hen
    unfold ServiceState.start
    simp [hen]
  · intro s e h
    unfold ServiceState.stop at h ⊢
    by_cases hen : s.recorder.enabled
    · cases e <;> simp [hen] at h ⊢
    · simp [hen]
  · intro s req
    unfold ServiceState.update
    cases req.period <;> cases req.size <;> simp

/-- C3: start fails with the already-running error exactly when the
recorder is enabled, and then changes nothing; stop fails with the
not-running error exactly when the recorder is not enabled, and then
changes nothing; when the start guard passes, the stored period and size
are pushed into the capability and the capability start outcome is
surfaced unchanged; when the stop guard passes, the capability stop
outcome is surfaced unchanged. -/
theorem c3 :
    (∀ (s : ServiceState) (e : Option (List Char)),
      ((s.start e).1 = some ServiceError.alreadyRunning ↔ s.recorder.enabled = true)) ∧
    (∀ (s : ServiceState) (e : Option (List Char)), s.recorder.enabled = true →
      s.start e = (some ServiceError.alreadyRunning, s)) ∧
    (∀ (s : ServiceState) (e : Option (List Char)),
      ((s.stop e).1 = some ServiceError.notRunning ↔ s.recorder.enabled = false)) ∧
    (∀ (s : ServiceState) (e : Option (List Char)), s.recorder.enabled = false →
      s.stop e = (some ServiceError.notRunning, s)) ∧
    (∀ (s : ServiceState) (e : Option (List Char)), s.recorder.enabled = false →
      (s.start e).2.recorder.rperiod = s.period ∧
      (s.start e).2.recorder.rsize = s.size ∧
      (s.start e).1 = e.map ServiceError.capability) ∧
    (∀ (s : ServiceState) (e : Option (List Char)), s.recorder.enabled = true →
      (s.stop e).1 = e.map ServiceError.capability) := by
  refine ⟨?_, ?_, ?_, ?_, ?_, ?_⟩
  · intro s e
    unfold ServiceState.start
    by_cases hen : s.recorder.enabled
    · simp [hen]
    · cases e <;> simp [hen]
  · intro s e hen
    unfold ServiceState.start
    simp [hen]
  · intro s e
    unfold ServiceState.stop
    by_cases hen : s.recorder.enabled
    · cases e <;> simp [hen]
    · simp [hen]
  · intro s e hen
    unfold ServiceState.stop
    simp [hen]
  · intro s e hen
    unfold ServiceState.start
    cases e <;> simp [hen]
  · intro s e hen
    unfold ServiceState.stop
    cases e <;> simp [hen]

/-- C4: update always succeeds, overwrites exactly the present fields of
the request (absent fields keep their stored values), never touches the
enabled flag, and pushes a present field into the capability exactly when
the recorder is currently enabled. -/
theorem c4 : ∀ (s : ServiceState) (req : UpdateRequest),
    (s.update req).1 = none ∧
    (s.update req).2.period = req.period.getD s.period ∧
    (s.update req).2.size = req.size.getD s.size ∧
    (s.update req).2.recorder.enabled = s.recorder.enabled ∧
    (s.update req).2.recorder.rperiod =
      (if s.recorder.enabled then req.period.getD s.recorder.rperiod
       else s.recorder.rperiod) ∧
    (s.update req).2.recorder.rsize =
      (if s.recorder.enabled then req.size.getD s.recorder.rsize
       else s.recorder.rsize) := by
  intro s req
  unfold ServiceState.update
  rcases req with ⟨p, z⟩
  cases p <;> cases z <;> by_cases hen : s.recorder.enabled <;> simp [hen]

/-- C6: snapshot fails with the not-running error when the recorder is not
enabled; when it is enabled, a successful capability write returns exactly
the bytes written, the snapshot-active condition maps to the distinct
snapshot-in-progress error, and any other write error is wrapped as a
write failure carrying the underlying cause. -/
theorem c6 : ∀ (s : ServiceState) (data : List Nat) (e : List Char) (w : WriteOutcome),
    (s.recorder.enabled = false → s.snapshot w = (none, some ServiceError.notRunning)) ∧
    (s.recorder.enabled = true →
      s.snapshot (WriteOutcome.ok data) = (some data, none) ∧
      s.snapshot WriteOutcome.snapshotActive =
        (none, some ServiceError.snapshotInProgress) ∧
      s.snapshot (WriteOutcome.failed e) =
        (none, some (ServiceError.writeFailed e))) := by
  intro s data e w
  unfold ServiceState.snapshot
  constructor
  · intro hen; simp [hen]
  · intro hen; simp [hen]

/-- C7: status is a total projection of the enabled flag and the stored
configuration, and immediately after construction over a fresh (disabled)
capability it reports enabled false, a period of one second (in
nanoseconds) and a size of 67108864 bytes. -/
theorem c7 :
    (∀ s : ServiceState,
      s.status = ⟨s.recorder.enabled, s.period, s.size⟩) ∧
    (∀ r0 : Recorder, r0.enabled = false →
      (initService r0).status = ⟨false, 1000000000, 67108864⟩) := by
  constructor
  · intro s; rfl
  · intro r0 h
    unfold initService ServiceState.status
    simp [h]

/-- C8: the duration decoder accepts the well-formed string 100ms, yielding
one hundred milliseconds in nanoseconds, and fails on the unparsable
string 2x with the invalid-duration error whose message carries the
offending literal. -/
theorem c8 :
    decodePeriod "100ms".toList = Except.ok 100000000 ∧
    decodePeriod "2x".toList = Except.error (CodecError.invalidDuration
      ("invalid period: 2x should be a duration (e.g. 1s, 100ms, 1h)".toList)) ∧
    (∃ pre post : List Char,
      "invalid period: 2x should be a duration (e.g. 1s, 100ms, 1h)".toList =
        pre ++ "2x".toList ++ post) :=
  ⟨by decide, by decide,
    ⟨"invalid period: ".toList,
     " should be a duration (e.g. 1s, 100ms, 1h)".toList, by decide⟩⟩

/-- C9: the byte-size decoder accepts negative magnitudes (-1MB decodes to
-1048576 and -5 to -5), and update stores any size value, negative ones
included, without validation and without failing. -/
theorem c9 :
    parseUnitsBytes "-1MB".toList = some (-1048576) ∧
    parseUnitsBytes "-5".toList = some (-5) ∧
    (∀ (s : ServiceState) (z : Int),
      (s.update { period := none, size := some z }).1 = none ∧
      (s.update { period := none, size := some z }).2.size = z) := by
  refine ⟨by decide, by decide, ?_⟩
  intro s z
  unfold ServiceState.update
  by_cases hen : s.recorder.enabled <;> simp [hen]

/-- C10: whenever snapshot returns an error, the returned payload is the
nil slice; no partial snapshot bytes accompany an error. -/
theorem c10 (s : ServiceState) (w : WriteOutcome)
    (h : (s.snapshot w).2 ≠ none) : (s.snapshot w).1 = none := by
  unfold ServiceState.snapshot at h ⊢
  by_cases hen : s.recorder.enabled
  · cases w <;> simp [hen] at h ⊢
  · simp [hen]

/-- C10 witness: a concrete stopped service, where snapshot errors and the
payload is nil. -/
theorem c10_witness :
    ((initService ⟨false, 0, 0⟩).snapshot (WriteOutcome.ok [])).1 = none :=
  c10 (initService ⟨false, 0, 0⟩) (WriteOutcome.ok []) (by decide)

end FlightRec
namespace FlightRec

lemma digits_all_digit : ∀ (cs : List Char) (acc n : Nat),
    digitsValAux cs acc = some n → ∀ c ∈ cs, isDigitCh c = true := by
  intro cs
  induction cs with
  | nil => intro acc n _ c hc; cases hc
  | cons d t ih =>
    intro acc n h c hc
    unfold digitsValAux at h
    by_cases hd : isDigitCh d = true
    · rw [if_pos hd] at h
      rcases List.mem_cons.mp hc with rfl | hc'
      · exact hd
      · exact ih _ n h c hc'
    · rw [if_neg hd] at h; cases h

lemma digits_getLast : ∀ (cs : List Char) (acc n : Nat), cs ≠ [] →
    digitsValAux cs acc = some n →
    ∃ c, cs.getLast? = some c ∧ isDigitCh c = true := by
  intro cs acc n hne h
  have hsome : cs.getLast?.isSome = true := List.getLast?_isSome.mpr hne
  rcases Option.isSome_iff_exists.mp hsome with ⟨c, hc⟩
  exact ⟨c, hc, digits_all_digit cs acc n h c (List.mem_of_mem_getLast? hc)⟩

lemma isSpaceCh_eq_false_of_isDigitCh {c : Char} (h : isDigitCh c = true) :
    isSpaceCh c = false := by
  unfold isDigitCh at h
  unfold isSpaceCh
  simp only [Bool.and_eq_true, decide_eq_true_eq] at h
  simp only [Bool.or_eq_false_iff, beq_eq_false_iff_ne, ne_eq]
  omega

lemma signed_digit_shape {c : Char} {cs : List Char} {n : Nat}
    (hsp : isSpaceCh c = false) (hcs : cs ≠ [])
    (hn : digitsValAux cs 0 = some n) :
    (∀ x ∈ c :: cs, isSpaceCh x = false) ∧
    ∃ d, (c :: cs).getLast? = some d ∧ isDigitCh d = true := by
  constructor
  · intro x hx
    rcases List.mem_cons.mp hx with rfl | hx'
    · exact hsp
    · exact isSpaceCh_eq_false_of_isDigitCh (digits_all_digit cs 0 n hn x hx')
  · rcases digits_getLast cs 0 n hcs hn with ⟨d, hd, hdig⟩
    refine ⟨d, ?_, hdig⟩
    rcases cs with _ | ⟨b, t⟩
    · exact absurd rfl hcs
    · rw [List.getLast?_cons_cons]; exact hd

/-- Any string accepted by atoi is non-empty, contains no white space, and
ends in a decimal digit. -/
lemma atoi_shape {s : List Char} {v : Int} (h : atoi s = some v) :
    s ≠ [] ∧ (∀ c ∈ s, isSpaceCh c = false) ∧
    ∃ c, s.getLast? = some c ∧ isDigitCh c = true := by
  rcases s with _ | ⟨c, cs⟩
  · cases h
  · simp only [atoi] at h
    refine ⟨by simp, ?_⟩
    by_cases hp : c = '+'
    · rw [if_pos hp] at h
      by_cases hcs : cs = []
      · rw [if_pos hcs] at h; cases h
      · rw [if_neg hcs] at h
        rcases Option.map_eq_some'.mp h with ⟨n, hn, _⟩
        exact signed_digit_shape (by rw [hp]; decide) hcs hn
    · rw [if_neg hp] at h
      by_cases hm : c = '-'
      · rw [if_pos hm] at h
        by_cases hcs : cs = []
        · rw [if_pos hcs] at h; cases h
        · rw [if_neg hcs] at h
          rcases Option.map_eq_some'.mp h with ⟨n, hn, _⟩
          exact signed_digit_shape (by rw [hm]; decide) hcs hn
      · rw [if_neg hm] at h
        rcases Option.map_eq_some'.mp h with ⟨n, hn, _⟩
        have hall := digits_all_digit (c :: cs) 0 n hn
        refine ⟨fun x hx => isSpaceCh_eq_false_of_isDigitCh (hall x hx), ?_⟩
        exact digits_getLast (c :: cs) 0 n (by simp) hn

lemma dropWhile_eq_self_of_none {p : Char → Bool} {l : List Char}
    (h : ∀ c ∈ l, p c = false) : l.dropWhile p = l := by
  rcases l with _ | ⟨a, t⟩
  · rfl
  · rw [List.dropWhile_cons, if_neg]
    simp [h a (List.mem_cons_self a t)]

lemma trimSpace_eq_self {l : List Char} (h : ∀ c ∈ l, isSpaceCh c = false) :
    trimSpace l = l := by
  unfold trimSpace
  rw [dropWhile_eq_self_of_none h,
    dropWhile_eq_self_of_none (fun c hc => h c (List.mem_reverse.mp hc)),
    List.reverse_reverse]

lemma hasSuffix_append (s t : List Char) : hasSuffix (s ++ t) t = true := by
  unfold hasSuffix
  have h1 : (s ++ t).length - t.length = s.length := by
    simp [List.length_append]
  rw [h1, List.drop_left]
  simp [List.length_append]

lemma trimSuffix_append (s t : List Char) : trimSuffix (s ++ t) t = s := by
  unfold trimSuffix
  rw [if_pos]
  · have h1 : (s ++ t).length - t.length = s.length := by
      simp [List.length_append]
    rw [h1, List.take_left]
  · rw [hasSuffix_append]

lemma hasSuffix_append_two_ne {t u : List Char} (s : List Char)
    (hlen : t.length = u.length) (hne : t ≠ u) : hasSuffix (s ++ t) u = false := by
  unfold hasSuffix
  have h1 : (s ++ t).length - u.length = s.length := by
    simp [List.length_append]
    omega
  rw [h1, List.drop_left]
  simp [hne]

lemma getLast?_drop_ne_nil : ∀ (l : List Char) (k : Nat), l.drop k ≠ [] →
    (l.drop k).getLast? = l.getLast? := by
  intro l
  induction l with
  | nil => intro k h; simp at h
  | cons a t ih =>
    intro k h
    cases k with
    | zero => rfl
    | succ k =>
      rw [List.drop_succ_cons] at h ⊢
      rw [ih k h]
      have ht : t ≠ [] := by
        intro he
        rw [he, List.drop_nil] at h
        exact h rfl
      rcases t with _ | ⟨b, t'⟩
      · exact absurd rfl ht
      · rw [List.getLast?_cons_cons]

lemma hasSuffix_eq_false_of_getLast {s : List Char} (t : List Char) {c d : Char}
    (hs : s.getLast? = some c) (ht : t.getLast? = some d) (hne : c ≠ d) :
    hasSuffix s t = false := by
  unfold hasSuffix
  by_cases heq : s.drop (s.length - t.length) = t
  · exfalso
    have hne' : s.drop (s.length - t.length) ≠ [] := by
      rw [heq]
      intro h0
      rw [h0] at ht
      cases ht
    have hlast := getLast?_drop_ne_nil s (s.length - t.length) hne'
    rw [heq, ht, hs] at hlast
    exact hne (Option.some.inj hlast).symm
  · simp [heq]

lemma drop_length_sub_one : ∀ (l : List Char), l ≠ [] →
    ∃ c, l.getLast? = some c ∧ l.drop (l.length - 1) = [c] := by
  intro l
  induction l with
  | nil => intro h; exact absurd rfl h
  | cons a t ih =>
    intro _
    rcases t with _ | ⟨b, t'⟩
    · exact ⟨a, rfl, rfl⟩
    · rcases ih (by simp) with ⟨c, hc, hdrop⟩
      refine ⟨c, ?_, ?_⟩
      · rw [List.getLast?_cons_cons]; exact hc
      · have h1 : (a :: b :: t').length - 1 = t'.length + 1 := by simp
        rw [h1, List.drop_succ_cons]
        have h2 : (b :: t').length - 1 = t'.length := by simp
        rw [h2] at hdrop
        exact hdrop

end FlightRec

namespace FlightRec

lemma nospace_append_of {s t : List Char} (hs : ∀ x ∈ s, isSpaceCh x = false)
    (ht : ∀ x ∈ t, isSpaceCh x = false) : ∀ x ∈ s ++ t, isSpaceCh x = false := by
  intro x hx
  rcases List.mem_append.mp hx with h | h
  · exact hs x h
  · exact ht x h

lemma hasSuffix_append_single {s : List Char} (x : Char) {c : Char}
    (hne : s ≠ []) (hlast : s.getLast? = some c) (hx : c ≠ x) :
    hasSuffix (s ++ ['B']) [x, 'B'] = false := by
  obtain ⟨c', hc', hdrop⟩ := drop_length_sub_one s hne
  rw [hlast] at hc'
  obtain rfl := Option.some.inj hc'
  have hlen : 1 ≤ s.length := by
    rcases s with _ | ⟨a, t⟩
    · exact absurd rfl hne
    · simp
  unfold hasSuffix
  have hslice : (s ++ ['B']).drop ((s ++ ['B']).length - [x, 'B'].length) = [c, 'B'] := by
    have h2 : (s ++ ['B']).length - [x, 'B'].length = s.length - 1 := by
      simp only [List.length_append, List.length_cons, List.length_nil]
      omega
    rw [h2, List.drop_append_eq_append_drop]
    have h3 : s.length - 1 - s.length = 0 := by omega
    rw [hdrop, h3]
    rfl
  rw [hslice]
  simp [hx]

lemma parseUnitsBytes_eval {s : List Char} (hns : ∀ x ∈ s, isSpaceCh x = false) :
    parseUnitsBytes s =
      (if hasSuffix s ['M', 'B'] then
        convertMemoryUnits (trimSuffix s ['M', 'B']) (1024 * 1024)
      else if hasSuffix s ['K', 'B'] then
        convertMemoryUnits (trimSuffix s ['K', 'B']) 1024
      else if hasSuffix s ['B'] then
        atoi (trimSuffix s ['B'])
      else
        atoi s) := by
  simp only [parseUnitsBytes, trimSpace_eq_self hns]

/-- C5: the byte-size decoder accepts a bare integer string as bytes and
an integer immediately followed by the suffix B, KB (1024 bytes) or MB
(1048576 bytes); decode of 1MB yields 1048576; it fails when the magnitude
part is not an integer (for example on abc, whose failure the unmarshalling
hook wraps in the invalid-size error carrying the literal). -/
theorem c5 :
    (∀ (s : List Char) (v : Int), atoi s = some v →
      parseUnitsBytes (s ++ ['M', 'B']) = some (v * 1048576) ∧
      parseUnitsBytes (s ++ ['K', 'B']) = some (v * 1024) ∧
      parseUnitsBytes (s ++ ['B']) = some v ∧
      parseUnitsBytes s = some v) ∧
    parseUnitsBytes "1MB".toList = some 1048576 ∧
    parseUnitsBytes "abc".toList = none ∧
    decodeSize "abc".toList = Except.error (CodecError.invalidSize
      ("invalid size: abc should be an integer of bytes, or a memory unit (e.g. X, or 1MB, 1KB, 1B)".toList)) ∧
    parseUnitsBytes "xMB".toList = none := by
  refine ⟨?_, by decide, by decide, by decide, by decide⟩
  intro s v hv
  obtain ⟨hne, hnospace, c, hlast, hdig⟩ := atoi_shape hv
  have hcM : c ≠ 'M' := by
    intro h
    rw [h] at hdig
    exact absurd hdig (by decide)
  have hcK : c ≠ 'K' := by
    intro h
    rw [h] at hdig
    exact absurd hdig (by decide)
  have hcB : c ≠ 'B' := by
    intro h
    rw [h] at hdig
    exact absurd hdig (by decide)
  refine ⟨?_, ?_, ?_, ?_⟩
  · rw [parseUnitsBytes_eval (nospace_append_of hnospace (by decide))]
    simp [hasSuffix_append, trimSuffix_append, convertMemoryUnits, hv]
  · have hKM : hasSuffix (s ++ ['K', 'B']) ['M', 'B'] = false :=
      hasSuffix_append_two_ne s (by decide) (by decide)
    rw [parseUnitsBytes_eval (nospace_append_of hnospace (by decide))]
    simp [hKM, hasSuffix_append, trimSuffix_append, convertMemoryUnits, hv]
  · have hBM : hasSuffix (s ++ ['B']) ['M', 'B'] = false :=
      hasSuffix_append_single 'M' hne hlast hcM
    have hBK : hasSuffix (s ++ ['B']) ['K', 'B'] = false :=
      hasSuffix_append_single 'K' hne hlast hcK
    rw [parseUnitsBytes_eval (nospace_append_of hnospace (by decide))]
    simp [hBM, hBK, hasSuffix_append, trimSuffix_append, hv]
  · have hM : hasSuffix s ['M', 'B'] = false :=
      hasSuffix_eq_false_of_getLast ['M', 'B'] hlast
        (show (['M', 'B'] : List Char).getLast? = some 'B' by decide) hcB
    have hK : hasSuffix s ['K', 'B'] = false :=
      hasSuffix_eq_false_of_getLast ['K', 'B'] hlast
        (show (['K', 'B'] : List Char).getLast? = some 'B' by decide) hcB
    have hB : hasSuffix s ['B'] = false :=
      hasSuffix_eq_false_of_getLast ['B'] hlast
        (show (['B'] : List Char).getLast? = some 'B' by decide) hcB
    rw [parseUnitsBytes_eval hnospace]
    simp [hM, hK, hB, hv]

end FlightRec
